import Mathlib

/-!
# Verification of the opencode-usage aggregation and comparison layer

Shallow embedding of `src/opencode_usage/db.py` (the SQLite query layer:
`OpenCodeDB._time_filter`, `OpenCodeDB._base_query`, the five views
`daily` / `by_model` / `by_agent` / `by_provider` / `by_session`, `totals`,
`to_dicts`) and of `src/opencode_usage/cli.py` (`_compute_deltas` and the
previous-window computation in `main`).

The SQLite table `message` holds one JSON document per row; `json_extract`
returns NULL for absent fields, so every extracted field is modelled as an
`Option`.  SQL three-valued logic is embedded explicitly: a comparison
against a NULL value is not true, `SUM` ignores NULLs (with the outer
`COALESCE(..., 0)` this equals summing `Option.getD 0`), `GROUP BY` puts all
NULL keys into one group, and a negative `LIMIT n` means "no limit" while a
non-negative one truncates.  Python truthiness on `Optional[str]` /
`Optional[int]` (`None` and `""` / `0` falsy) is embedded where the source
uses it (`r["label"] or "(unknown)"`, `if r.detail`, `if prev_val`,
`if limit`).  Floats (`cost`, delta percentages) are embedded as `Rat`.
The `date(..., 'unixepoch', 'localtime')` conversion of the daily view
depends on the process timezone and is passed in as a function parameter
`localDate`.
-/

/-- One row of the `message` table, schema-on-read: each JSON field that the
queries extract, `none` when absent. -/
structure Message where
  role : Option String
  created : Option Int
  tokInput : Option Int
  tokOutput : Option Int
  tokReasoning : Option Int
  tokCacheRead : Option Int
  tokCacheWrite : Option Int
  tokTotal : Option Int
  cost : Option Rat
  modelID : Option String
  agent : Option String
  providerID : Option String
  sessionId : Option String
  deriving DecidableEq, Repr

/-- One row of the `session` table: primary key `id` and nullable `title`. -/
structure Session where
  id : String
  title : Option String
  deriving DecidableEq, Repr

/-- `TokenStats` from db.py: the six token counters of one aggregated row. -/
structure TokenStats where
  input : Int := 0
  output : Int := 0
  reasoning : Int := 0
  cache_read : Int := 0
  cache_write : Int := 0
  total : Int := 0
  deriving DecidableEq, Repr

/-- `UsageRow` from db.py: a single aggregated usage row. -/
structure UsageRow where
  label : String
  calls : Nat := 0
  tokens : TokenStats := {}
  cost : Rat := 0
  detail : Option String := none
  deriving DecidableEq, Repr

/-- The WHERE clause of every query:
`json_extract(data, '$.role') = 'assistant' AND
 json_extract(data, '$.tokens.total') IS NOT NULL`.
A NULL role fails the equality under SQL three-valued logic. -/
def qualifies (m : Message) : Bool :=
  m.role = some "assistant" && m.tokTotal.isSome

/-- `OpenCodeDB._time_filter`: appends `created >= since` when `since` is
given and `created < until` when `until` is given; with a bound present, a
record whose `time.created` is NULL fails the comparison (SQL NULL
semantics); an absent bound contributes no clause. -/
def timeOk (since untl : Option Int) (m : Message) : Bool :=
  (match since with
   | none => true
   | some s => match m.created with
     | none => false
     | some c => decide (s ≤ c)) &&
  (match untl with
   | none => true
   | some u => match m.created with
     | none => false
     | some c => decide (c < u))

/-- Records admitted by the WHERE clause of every view: the inclusion
predicate conjoined with the time-window clauses. -/
def passes (since untl : Option Int) (m : Message) : Bool :=
  qualifies m && timeOk since untl m

/-- `SUM(json_extract(...))` wrapped in `COALESCE(..., 0)`: SQL SUM skips
NULLs and yields NULL on an empty/all-NULL group, which COALESCE turns into
0; that equals summing each value defaulted to 0. -/
def sumOpt (f : Message → Option Int) (l : List Message) : Int :=
  (l.map (fun m => (f m).getD 0)).sum

/-- `COALESCE(SUM(json_extract(data, '$.cost')), 0)`. -/
def sumCost (l : List Message) : Rat :=
  (l.map (fun m => (Message.cost m).getD 0)).sum

/-- The six token sums of one group. -/
def aggTokens (l : List Message) : TokenStats :=
  { input := sumOpt Message.tokInput l
    output := sumOpt Message.tokOutput l
    reasoning := sumOpt Message.tokReasoning l
    cache_read := sumOpt Message.tokCacheRead l
    cache_write := sumOpt Message.tokCacheWrite l
    total := sumOpt Message.tokTotal l }

/-- Python `value or placeholder` on an `Optional[str]` column value:
`None` and the empty string are falsy and give the placeholder. -/
def orPlaceholder (s : Option String) (ph : String) : String :=
  match s with
  | none => ph
  | some t => if t = "" then ph else t

/-- The `LIMIT` handling: Python `if limit:` skips the clause for `None`
and `0`; a negative SQLite `LIMIT` means no limit; a positive `LIMIT n`
keeps the first `n` rows of the sorted result. -/
def applyLimit {α : Type} (limit : Option Int) (l : List α) : List α :=
  match limit with
  | none => l
  | some n => if n = 0 then l else if n < 0 then l else l.take n.toNat

/-- Insert into a sorted list, keeping existing elements first on ties:
the structural sort embedding `ORDER BY`. -/
def insertLe {α : Type} (le : α → α → Bool) (a : α) : List α → List α
  | [] => [a]
  | b :: t => if le a b && !le b a then a :: b :: t else b :: insertLe le a t

/-- Stable insertion sort used to embed `ORDER BY`. -/
def sortBy {α : Type} (le : α → α → Bool) : List α → List α
  | [] => []
  | a :: t => insertLe le a (sortBy le t)

/-- The groups of `GROUP BY`: the distinct key values of the admitted
records (NULL keys form one group, as in SQLite), each with the sublist of
records having that key. -/
def groupsFor {κ : Type} [DecidableEq κ] (key : Message → κ)
    (since untl : Option Int) (msgs : List Message) :
    List (κ × List Message) :=
  (((msgs.filter (passes since untl)).map key).dedup).map
    (fun k => (k, (msgs.filter (passes since untl)).filter (fun m => key m = k)))

/-- SQLite `ORDER BY ... ASC` on a nullable text column: NULLs sort first,
then binary (codepoint) order. -/
def optStrLe (a b : Option String) : Bool :=
  match a, b with
  | none, _ => true
  | some _, none => false
  | some x, some y => decide (x ≤ y)

/-- Total tokens of a group, the `total_tokens` column of the SELECT. -/
def groupTotal {κ : Type} (g : κ × List Message) : Int :=
  sumOpt Message.tokTotal g.2

/-- `ORDER BY total_tokens DESC` on groups. -/
def totalDescLe {κ : Type} (a b : κ × List Message) : Bool :=
  decide (groupTotal b ≤ groupTotal a)

/-- `ORDER BY label DESC` of the daily view: descending binary order on the
nullable label, NULLs last. -/
def labelDescLe (a b : Option String × List Message) : Bool :=
  optStrLe b.1 a.1

/-- The Python row mapping of `_base_query`: one SQL result row (a group)
to a `UsageRow`, with the `(unknown)` placeholder for a falsy label. -/
def rowOfGroup (g : Option String × List Message) : UsageRow :=
  { label := orPlaceholder g.1 "(unknown)"
    calls := g.2.length
    tokens := aggTokens g.2
    cost := sumCost g.2 }

/-- `OpenCodeDB._base_query`: filter by the inclusion predicate and the
time window, group by the view's key expression, aggregate each group,
order, apply the limit, and map each SQL row to a `UsageRow`. -/
def base_query (key : Message → Option String)
    (le : (Option String × List Message) → (Option String × List Message) → Bool)
    (since untl : Option Int) (limit : Option Int)
    (msgs : List Message) : List UsageRow :=
  (applyLimit limit (sortBy le (groupsFor key since untl msgs))).map rowOfGroup

/-- The daily group key `date(created / 1000, 'unixepoch', 'localtime')`:
NULL for a NULL `time.created`, otherwise the local calendar date of the
epoch-second value; the timezone-dependent conversion is the parameter
`localDate`. -/
def dailyKey (localDate : Int → String) (m : Message) : Option String :=
  m.created.map (fun c => localDate (c / 1000))

/-- `OpenCodeDB.daily`. -/
def daily (localDate : Int → String) (since untl : Option Int)
    (limit : Option Int) (msgs : List Message) : List UsageRow :=
  base_query (dailyKey localDate) labelDescLe since untl limit msgs

/-- `OpenCodeDB.by_model`. -/
def by_model (since untl : Option Int) (limit : Option Int)
    (msgs : List Message) : List UsageRow :=
  base_query Message.modelID totalDescLe since untl limit msgs

/-- `OpenCodeDB.by_provider`. -/
def by_provider (since untl : Option Int) (limit : Option Int)
    (msgs : List Message) : List UsageRow :=
  base_query Message.providerID totalDescLe since untl limit msgs

/-- The `ORDER BY agent, total_tokens DESC` of the by_agent view. -/
def agentLe (a b : (Option String × Option String) × List Message) : Bool :=
  if a.1.1 = b.1.1 then decide (groupTotal b ≤ groupTotal a)
  else optStrLe a.1.1 b.1.1 && !optStrLe b.1.1 a.1.1

/-- The Python row mapping of `by_agent`: label is the agent (with the
`(unknown)` placeholder), `detail` is the model value verbatim, NULL
included. -/
def agentRowOfGroup (g : (Option String × Option String) × List Message) :
    UsageRow :=
  { label := orPlaceholder g.1.1 "(unknown)"
    calls := g.2.length
    tokens := aggTokens g.2
    cost := sumCost g.2
    detail := g.1.2 }

/-- `OpenCodeDB.by_agent`: `GROUP BY agent, model`. -/
def by_agent (since untl : Option Int) (limit : Option Int)
    (msgs : List Message) : List UsageRow :=
  (applyLimit limit (sortBy agentLe
    (groupsFor (fun m => (m.agent, m.modelID)) since untl msgs))).map
    agentRowOfGroup

/-- `LEFT JOIN session s ON m.session_id = s.id` followed by `s.title`:
NULL when the message's session id is NULL, when no session row matches, or
when the matched title is NULL. -/
def joinedTitle (sessions : List Session) (sid : Option String) :
    Option String :=
  sid.bind (fun i => (sessions.find? (fun s => s.id = i)).bind Session.title)

/-- `COALESCE(s.title, m.session_id)`, the label column of by_session. -/
def sessionLabelSql (sessions : List Session) (sid : Option String) :
    Option String :=
  match joinedTitle sessions sid with
  | some t => some t
  | none => sid

/-- The Python row mapping of `by_session`: label
`COALESCE(s.title, m.session_id)` with the `(untitled)` placeholder for a
falsy value. -/
def sessionRowOfGroup (sessions : List Session)
    (g : Option String × List Message) : UsageRow :=
  { label := orPlaceholder (sessionLabelSql sessions g.1) "(untitled)"
    calls := g.2.length
    tokens := aggTokens g.2
    cost := sumCost g.2 }

/-- `OpenCodeDB.by_session`: `GROUP BY m.session_id`,
`ORDER BY total_tokens DESC`. -/
def by_session (sessions : List Session) (since untl : Option Int)
    (limit : Option Int) (msgs : List Message) : List UsageRow :=
  (applyLimit limit (sortBy totalDescLe
    (groupsFor Message.sessionId since untl msgs))).map
    (sessionRowOfGroup sessions)

/-- `OpenCodeDB.totals`: `_base_query` with the constant group expression
`'total'` and no limit; an empty result (no qualifying record) falls back
to `UsageRow(label="total")` with all-default fields. -/
def totals (since untl : Option Int) (msgs : List Message) : UsageRow :=
  match base_query (fun _ => some "total") totalDescLe since untl none msgs with
  | [] => { label := "total" }
  | r :: _ => r

/-- The JSON shape `OpenCodeDB.to_dicts` emits per row: the `model` field
models the optional `"model"` key, present exactly when it is `some`. -/
structure RowDict where
  label : String
  calls : Nat
  tokens : TokenStats
  cost : Rat
  model : Option String
  deriving DecidableEq, Repr

/-- `round(x, 4)` on the cost (ties rounded half up in this embedding of
the float rounding; no claim depends on tie behaviour). -/
def round4 (x : Rat) : Rat :=
  (round (x * 10000) : Int) / 10000

/-- One entry of `OpenCodeDB.to_dicts`: the dict for one row; the `model`
key is added iff `r.detail is not None` (empty string included). -/
def toDict (r : UsageRow) : RowDict :=
  { label := r.label
    calls := r.calls
    tokens := r.tokens
    cost := round4 r.cost
    model := r.detail }

/-- `OpenCodeDB.to_dicts`. -/
def to_dicts (rows : List UsageRow) : List RowDict :=
  rows.map toDict

/-- The matching key of `_compute_deltas`:
`f"{r.label}:{r.detail}" if r.detail else r.label` — Python truthiness, so
both `None` and the empty string fall back to the bare label. -/
def deltaKey (r : UsageRow) : String :=
  match r.detail with
  | none => r.label
  | some d => if d = "" then r.label else r.label ++ ":" ++ d

/-- `dict.__setitem__`: replace the binding of `k` if present, else append. -/
def setKey (m : List (String × Int)) (k : String) (v : Int) :
    List (String × Int) :=
  match m with
  | [] => [(k, v)]
  | (q, w) :: rest => if q = k then (k, v) :: rest else (q, w) :: setKey rest k v

/-- The `prev_map` loop of `_compute_deltas`:
`prev_map[key] = prev_map.get(key, 0) + r.tokens.total`. -/
def buildPrevMap (previous : List UsageRow) : List (String × Int) :=
  previous.foldl
    (fun m r =>
      setKey m (deltaKey r) (((m.lookup (deltaKey r)).getD 0) + r.tokens.total))
    []

/-- `_compute_deltas` from cli.py: one entry per current row, in order;
`prev_val = prev_map.get(key)` then `if prev_val and prev_val > 0` (so a
missing key, a zero and a negative previous total all give `None`), else
`(r.tokens.total - prev_val) / prev_val * 100`. -/
def compute_deltas (current previous : List UsageRow) : List (Option Rat) :=
  let prev_map := buildPrevMap previous
  current.map (fun r =>
    match prev_map.lookup (deltaKey r) with
    | none => none
    | some pv =>
      if pv ≠ 0 && pv > 0 then
        some (((r.tokens.total : Rat) - (pv : Rat)) / (pv : Rat) * 100)
      else none)

/-- The `--compare` window computation of `main` (cli.py lines 195-199):
with the reference timestamp `now` read once, `period_length = now - since`
and `prev_since = since - period_length`; the current queries then run with
`(since, None)` and the previous ones with `(prev_since, since)`.  Returns
((current since, current until), (previous since, previous until)). -/
def compare_windows (now since : Int) :
    (Option Int × Option Int) × (Option Int × Option Int) :=
  ((some since, none), (some (since - (now - since)), some since))

/-- Modelled from the spec: the matching key as §4.3 words it — the label
alone when `detail` is absent/null, otherwise `label + ":" + detail`.  Used
only to compare the spec's wording with `deltaKey` from the source. -/
def spec_delta_key (r : UsageRow) : String :=
  match r.detail with
  | none => r.label
  | some d => r.label ++ ":" ++ d

/-- Modelled from the spec: `_compute_deltas` as §4.3 words it, identical
to the source algorithm except that the matching key is `spec_delta_key`. -/
def spec_compute_deltas (current previous : List UsageRow) :
    List (Option Rat) :=
  let prev_map := previous.foldl
    (fun m r =>
      setKey m (spec_delta_key r)
        (((m.lookup (spec_delta_key r)).getD 0) + r.tokens.total))
    []
  current.map (fun r =>
    match prev_map.lookup (spec_delta_key r) with
    | none => none
    | some pv =>
      if pv ≠ 0 && pv > 0 then
        some (((r.tokens.total : Rat) - (pv : Rat)) / (pv : Rat) * 100)
      else none)

/-- Modelled from the spec: the by_session label rule as §4.2 words it —
the session's title when present and non-null, else the raw session id. -/
def spec_session_label (sessions : List Session) (sid : String) : String :=
  match joinedTitle sessions (some sid) with
  | some t => t
  | none => sid

/-! ## General lemmas about the embedded SQL operations -/

theorem insertLe_perm {α : Type} (le : α → α → Bool) (a : α) (l : List α) :
    (insertLe le a l).Perm (a :: l) := by
  induction l with
  | nil => simp [insertLe]
  | cons b t ih =>
    by_cases h : (le a b && !le b a) = true
    · simp [insertLe, h]
    · simpa [insertLe, h] using ((ih.cons b).trans (List.Perm.swap a b t))

theorem sortBy_perm {α : Type} (le : α → α → Bool) (l : List α) :
    (sortBy le l).Perm l := by
  induction l with
  | nil => simp [sortBy]
  | cons a t ih => exact (insertLe_perm le a (sortBy le t)).trans (ih.cons a)

theorem sum_map_ite_eq {κ : Type} [DecidableEq κ] (a : κ) (c : Int) :
    ∀ (ks : List κ), ks.Nodup → a ∈ ks →
      (ks.map (fun k => if a = k then c else 0)).sum = c := by
  intro ks
  induction ks with
  | nil => intro _ h; cases h
  | cons k t ih =>
    intro hn ha
    rcases List.mem_cons.mp ha with h | h
    · subst h
      have hz : ((t.map (fun k => if a = k then c else 0))).sum = 0 := by
        apply List.sum_eq_zero
        intro x hx
        rcases List.mem_map.mp hx with ⟨b, hb, hbx⟩
        have : a ≠ b := by
          intro e
          exact (List.nodup_cons.mp hn).1 (e ▸ hb)
        simpa [this] using hbx.symm
      simp [hz]
    · have : a ≠ k := by
        intro e
        exact (List.nodup_cons.mp hn).1 (e ▸ h)
      simp [this, ih (List.nodup_cons.mp hn).2 h]

theorem sum_fiber_aux {κ : Type} [DecidableEq κ] (key : Message → κ)
    (f : Message → Int) :
    ∀ (l : List Message) (ks : List κ), ks.Nodup → (∀ m ∈ l, key m ∈ ks) →
      (ks.map (fun k => ((l.filter (fun m => key m = k)).map f).sum)).sum
        = (l.map f).sum := by
  intro l
  induction l with
  | nil => intro ks _ _; simp
  | cons m t ih =>
    intro ks hn hmem
    have hstep : (ks.map (fun k =>
        (((m :: t).filter (fun x => key x = k)).map f).sum)).sum
      = (ks.map (fun k => (if key m = k then f m else 0)
          + ((t.filter (fun x => key x = k)).map f).sum)).sum := by
      apply congrArg
      apply List.map_congr_left
      intro k _
      by_cases h : key m = k
      · simp [List.filter_cons, h]
      · simp [List.filter_cons, h]
    rw [hstep, List.sum_map_add,
      sum_map_ite_eq (key m) (f m) ks hn (hmem m (List.mem_cons_self m t)),
      ih ks hn (fun x hx => hmem x (List.mem_cons_of_mem m hx))]
    simp

theorem sum_over_groups {κ : Type} [DecidableEq κ] (key : Message → κ)
    (since untl : Option Int) (msgs : List Message) (f : Message → Int) :
    ((groupsFor key since untl msgs).map (fun g => (g.2.map f).sum)).sum
      = ((msgs.filter (passes since untl)).map f).sum := by
  unfold groupsFor
  rw [List.map_map]
  exact sum_fiber_aux key f (msgs.filter (passes since untl))
    ((msgs.filter (passes since untl)).map key).dedup
    (List.nodup_dedup _)
    (fun m hm => List.mem_dedup.mpr (List.mem_map_of_mem key hm))

theorem dedup_map_const {α β : Type} [DecidableEq β] (c : β) (m : α)
    (t : List α) : ((m :: t).map (fun _ => c)).dedup = [c] := by
  induction t with
  | nil => simp
  | cons b t ih =>
    have h1 : ((m :: b :: t).map (fun _ => c)) = c :: ((m :: t).map (fun _ => c)) := by
      simp
    have h2 : c ∈ (m :: t).map (fun _ => c) := by simp
    rw [h1, List.dedup_cons_of_mem h2]
    exact ih

/-- `totals` in closed form: the single row always carries label `"total"`
and the count and sums of all admitted records; when no record is admitted
every numeric field is the Python dataclass default. -/
theorem totals_eq (since untl : Option Int) (msgs : List Message) :
    totals since untl msgs =
      { label := "total"
        calls := (msgs.filter (passes since untl)).length
        tokens := aggTokens (msgs.filter (passes since untl))
        cost := sumCost (msgs.filter (passes since untl)) } := by
  unfold totals base_query
  cases hfl : msgs.filter (passes since untl) with
  | nil =>
    simp [groupsFor, hfl, sortBy, applyLimit, aggTokens, sumOpt, sumCost]
  | cons m t =>
    have hkeys : ((msgs.filter (passes since untl)).map
        (fun _ : Message => some "total")).dedup = [some "total"] := by
      rw [hfl]; exact dedup_map_const (some "total") m t
    have hfib : (msgs.filter (passes since untl)).filter
        (fun x => (some "total" : Option String) = some "total")
        = msgs.filter (passes since untl) := by
      simp
    simp only [groupsFor, hkeys, List.map_cons, List.map_nil, hfib, sortBy,
      insertLe, applyLimit, rowOfGroup, orPlaceholder]
    rw [hfl]
    simp

/-- The sum of per-group `tokens.total` over a returned row list. -/
def rowsTotal (rows : List UsageRow) : Int :=
  (rows.map (fun r => r.tokens.total)).sum

theorem rowsTotal_base_query (key : Message → Option String) (le)
    (s u : Option Int) (msgs : List Message) :
    rowsTotal (base_query key le s u none msgs)
      = ((msgs.filter (passes s u)).map
          (fun m => (Message.tokTotal m).getD 0)).sum := by
  unfold rowsTotal base_query applyLimit
  rw [List.map_map,
    ((sortBy_perm le (groupsFor key s u msgs)).map
      ((fun r : UsageRow => r.tokens.total) ∘ rowOfGroup)).sum_eq]
  exact sum_over_groups key s u msgs _

theorem rowsTotal_by_agent (s u : Option Int) (msgs : List Message) :
    rowsTotal (by_agent s u none msgs)
      = ((msgs.filter (passes s u)).map
          (fun m => (Message.tokTotal m).getD 0)).sum := by
  unfold rowsTotal by_agent applyLimit
  rw [List.map_map,
    ((sortBy_perm agentLe
        (groupsFor (fun m => (m.agent, m.modelID)) s u msgs)).map
      ((fun r : UsageRow => r.tokens.total) ∘ agentRowOfGroup)).sum_eq]
  exact sum_over_groups (fun m => (m.agent, m.modelID)) s u msgs _

theorem rowsTotal_by_session (sessions : List Session) (s u : Option Int)
    (msgs : List Message) :
    rowsTotal (by_session sessions s u none msgs)
      = ((msgs.filter (passes s u)).map
          (fun m => (Message.tokTotal m).getD 0)).sum := by
  unfold rowsTotal by_session applyLimit
  rw [List.map_map,
    ((sortBy_perm totalDescLe
        (groupsFor Message.sessionId s u msgs)).map
      ((fun r : UsageRow => r.tokens.total) ∘ sessionRowOfGroup sessions)).sum_eq]
  exact sum_over_groups Message.sessionId s u msgs _

theorem filter_qualifies_passes (s u : Option Int) (msgs : List Message) :
    (msgs.filter qualifies).filter (passes s u) = msgs.filter (passes s u) := by
  rw [List.filter_filter]
  apply List.filter_congr
  intro m _
  unfold passes
  cases hq : qualifies m <;> cases ht : timeOk s u m <;> simp [hq, ht]

theorem groupsFor_filter_qualifies {κ : Type} [DecidableEq κ]
    (key : Message → κ) (s u : Option Int) (msgs : List Message) :
    groupsFor key s u (msgs.filter qualifies) = groupsFor key s u msgs := by
  unfold groupsFor
  rw [filter_qualifies_passes]

theorem applyLimit_eq {α : Type} (n : Int) (l : List α) :
    applyLimit (some n) l = if n ≤ 0 then l else l.take n.toNat := by
  unfold applyLimit
  by_cases h0 : n = 0
  · simp [h0]
  · by_cases hneg : n < 0
    · simp [h0, hneg, le_of_lt hneg]
    · have hle : ¬ n ≤ 0 := by omega
      simp [h0, hneg, hle]

theorem applyLimit_subset {α : Type} (lim : Option Int) (l : List α) :
    applyLimit lim l ⊆ l := by
  unfold applyLimit
  cases lim with
  | none => exact fun a h => h
  | some n =>
    by_cases h0 : n = 0
    · simp only [h0, if_pos rfl]
      exact fun a h => h
    · by_cases hneg : n < 0
      · simp only [h0, if_neg h0, if_pos hneg]
        exact fun a h => h
      · simp only [h0, if_neg h0, if_neg hneg]
        exact List.take_subset n.toNat l

theorem mem_sorted_groups_map {κ β : Type} [DecidableEq κ]
    (build : κ × List Message → β) (key : Message → κ)
    (le : (κ × List Message) → (κ × List Message) → Bool)
    (s u : Option Int) (msgs : List Message) (b : β) :
    b ∈ (sortBy le (groupsFor key s u msgs)).map build ↔
      ∃ k ∈ ((msgs.filter (passes s u)).map key).dedup,
        b = build (k, (msgs.filter (passes s u)).filter (fun m => key m = k)) := by
  rw [List.mem_map]
  constructor
  · rintro ⟨g, hg, rfl⟩
    have hg2 : g ∈ groupsFor key s u msgs :=
      (sortBy_perm le _).mem_iff.mp hg
    unfold groupsFor at hg2
    rcases List.mem_map.mp hg2 with ⟨k, hk, rfl⟩
    exact ⟨k, hk, rfl⟩
  · rintro ⟨k, hk, rfl⟩
    refine ⟨(k, (msgs.filter (passes s u)).filter (fun m => key m = k)), ?_, rfl⟩
    apply (sortBy_perm le _).mem_iff.mpr
    unfold groupsFor
    exact List.mem_map_of_mem _ hk

theorem orPlaceholder_ne_empty (s : Option String) (ph : String)
    (h : ph ≠ "") : orPlaceholder s ph ≠ "" := by
  unfold orPlaceholder
  cases s with
  | none => exact h
  | some t =>
    by_cases ht : t = ""
    · simpa [ht] using h
    · simp [ht]

/-- The declarative value of the previous-period map: the sum of
`tokens.total` over the previous rows sharing a matching key. -/
def sumMatching (previous : List UsageRow) (k : String) : Int :=
  ((previous.filter (fun r => deltaKey r = k)).map
    (fun r => r.tokens.total)).sum

theorem lookup_setKey (k : String) (v : Int) (q : String) :
    ∀ m : List (String × Int),
      (setKey m k v).lookup q = if q = k then some v else m.lookup q := by
  intro m
  induction m with
  | nil =>
    by_cases h : q = k
    · subst h; simp [setKey, List.lookup]
    · have hb : (q == k) = false := beq_eq_false_iff_ne.mpr h
      simp [setKey, List.lookup, h, hb]
  | cons e rest ih =>
    obtain ⟨a, w⟩ := e
    by_cases hak : a = k
    · subst hak
      by_cases hq : q = a
      · subst hq; simp [setKey, List.lookup]
      · have hb : (q == a) = false := beq_eq_false_iff_ne.mpr hq
        simp [setKey, List.lookup, hq, hb]
    · by_cases hqa : q = a
      · subst hqa
        have hq : ¬ q = k := fun e => hak (e ▸ rfl)
        simp [setKey, hak, List.lookup, hq]
      · have hbqa : (q == a) = false := beq_eq_false_iff_ne.mpr hqa
        have hka : (k == a) = false :=
          beq_eq_false_iff_ne.mpr (fun e => hak e.symm)
        by_cases hq : q = k
        · subst hq
          simp [setKey, hak, List.lookup, hbqa, hka, ih]
        · simp [setKey, hak, List.lookup, hbqa, hq, ih]

theorem sumMatching_eq_zero_of_not_any (t : List UsageRow) (k : String)
    (h : ¬ t.any (fun r => deltaKey r = k) = true) : sumMatching t k = 0 := by
  unfold sumMatching
  have : t.filter (fun r => deltaKey r = k) = [] := by
    rw [List.filter_eq_nil_iff]
    intro a ha
    intro hak
    exact h (List.any_eq_true.mpr ⟨a, ha, hak⟩)
  rw [this]
  simp

theorem lookup_foldl_step (k : String) :
    ∀ (l : List UsageRow) (m : List (String × Int)),
      ((l.foldl (fun m r => setKey m (deltaKey r)
          (((m.lookup (deltaKey r)).getD 0) + r.tokens.total)) m).lookup k)
        = if l.any (fun r => deltaKey r = k)
          then some ((m.lookup k).getD 0 + sumMatching l k)
          else m.lookup k := by
  intro l
  induction l with
  | nil => intro m; simp [sumMatching]
  | cons r t ih =>
    intro m
    rw [List.foldl_cons, ih]
    by_cases hr : deltaKey r = k
    · have hstep : (setKey m (deltaKey r)
          (((m.lookup (deltaKey r)).getD 0) + r.tokens.total)).lookup k
          = some ((m.lookup k).getD 0 + r.tokens.total) := by
        rw [lookup_setKey, if_pos hr.symm, hr]
      have hany : (r :: t).any (fun r => deltaKey r = k) = true := by
        simp [List.any_cons, hr]
      have hsm : sumMatching (r :: t) k = r.tokens.total + sumMatching t k := by
        unfold sumMatching
        simp [List.filter_cons, hr]
      by_cases ht : t.any (fun r => deltaKey r = k) = true
      · rw [if_pos ht, hstep, if_pos hany, hsm]
        simp [add_assoc]
      · rw [if_neg ht, hstep, if_pos hany, hsm,
          sumMatching_eq_zero_of_not_any t k ht]
        simp
    · have hstep : (setKey m (deltaKey r)
          (((m.lookup (deltaKey r)).getD 0) + r.tokens.total)).lookup k
          = m.lookup k := by
        rw [lookup_setKey, if_neg (fun e => hr e.symm)]
      have hany : (r :: t).any (fun r => deltaKey r = k)
          = t.any (fun r => deltaKey r = k) := by
        simp [List.any_cons, hr]
      have hsm : sumMatching (r :: t) k = sumMatching t k := by
        unfold sumMatching
        simp [List.filter_cons, hr]
      rw [hstep, hany, hsm]

theorem lookup_buildPrevMap (previous : List UsageRow) (k : String) :
    (buildPrevMap previous).lookup k
      = if previous.any (fun r => deltaKey r = k)
        then some (sumMatching previous k)
        else none := by
  unfold buildPrevMap
  rw [lookup_foldl_step k previous []]
  simp [List.lookup]

/-! ## Claims -/

/-- C1: a record contributes to any view (daily, by_model, by_agent,
by_provider, by_session, totals) iff its role is `"assistant"` and its
`tokens.total` is present: every view is unchanged when the input is
pre-restricted to the qualifying records (so a non-qualifying record
contributes zero to every count, token sum and cost, totals included), and
each qualifying record in the window is counted once by `totals`. -/
theorem claim_C1_inclusion_predicate :
    ∀ (localDate : Int → String) (sessions : List Session)
      (s u lim : Option Int) (msgs : List Message),
      daily localDate s u lim (msgs.filter qualifies) = daily localDate s u lim msgs
      ∧ by_model s u lim (msgs.filter qualifies) = by_model s u lim msgs
      ∧ by_agent s u lim (msgs.filter qualifies) = by_agent s u lim msgs
      ∧ by_provider s u lim (msgs.filter qualifies) = by_provider s u lim msgs
      ∧ by_session sessions s u lim (msgs.filter qualifies)
          = by_session sessions s u lim msgs
      ∧ totals s u (msgs.filter qualifies) = totals s u msgs
      ∧ (totals s u msgs).calls = (msgs.filter (passes s u)).length := by
  intro localDate sessions s u lim msgs
  refine ⟨?_, ?_, ?_, ?_, ?_, ?_, ?_⟩
  · unfold daily base_query; rw [groupsFor_filter_qualifies]
  · unfold by_model base_query; rw [groupsFor_filter_qualifies]
  · unfold by_agent; rw [groupsFor_filter_qualifies]
  · unfold by_provider base_query; rw [groupsFor_filter_qualifies]
  · unfold by_session; rw [groupsFor_filter_qualifies]
  · unfold totals base_query; rw [groupsFor_filter_qualifies]
  · rw [totals_eq]

/-- C2: for every view and window, the sum of the per-group `tokens.total`
over all returned groups (no limit applied) equals the `totals` row's
`tokens.total` over the same window. -/
theorem claim_C2_group_sums_match_totals :
    ∀ (localDate : Int → String) (sessions : List Session)
      (s u : Option Int) (msgs : List Message),
      rowsTotal (daily localDate s u none msgs) = (totals s u msgs).tokens.total
      ∧ rowsTotal (by_model s u none msgs) = (totals s u msgs).tokens.total
      ∧ rowsTotal (by_agent s u none msgs) = (totals s u msgs).tokens.total
      ∧ rowsTotal (by_provider s u none msgs) = (totals s u msgs).tokens.total
      ∧ rowsTotal (by_session sessions s u none msgs)
          = (totals s u msgs).tokens.total := by
  intro localDate sessions s u msgs
  have htot : (totals s u msgs).tokens.total
      = ((msgs.filter (passes s u)).map
          (fun m => (Message.tokTotal m).getD 0)).sum := by
    rw [totals_eq]
    rfl
  refine ⟨?_, ?_, ?_, ?_, ?_⟩ <;> rw [htot]
  · unfold daily
    exact rowsTotal_base_query (dailyKey localDate) labelDescLe s u msgs
  · unfold by_model
    exact rowsTotal_base_query Message.modelID totalDescLe s u msgs
  · exact rowsTotal_by_agent s u msgs
  · unfold by_provider
    exact rowsTotal_base_query Message.providerID totalDescLe s u msgs
  · exact rowsTotal_by_session sessions s u msgs

/-- C4: the time window is strictly half-open on `time.created`: a record
whose `time.created` equals `since` passes the since clause (the since
bound imposes nothing beyond what an absent bound would), a record whose
`time.created` equals `until` is excluded whatever the since bound, and
absent bounds impose no constraint. -/
theorem claim_C4_half_open_window :
    ∀ (m : Message) (t : Int), m.created = some t →
      (∀ u : Option Int, timeOk (some t) u m = timeOk none u m)
      ∧ (∀ s : Option Int, timeOk s (some t) m = false)
      ∧ timeOk none none m = true := by
  intro m t hm
  refine ⟨?_, ?_, ?_⟩
  · intro u; unfold timeOk; rw [hm]; simp
  · intro s; unfold timeOk; rw [hm]; simp
  · unfold timeOk; simp

/-- A sample record at `time.created = 5` for the C4 witness. -/
def c4msg : Message :=
  { role := some "assistant", created := some 5, tokInput := none
    tokOutput := none, tokReasoning := none, tokCacheRead := none
    tokCacheWrite := none, tokTotal := some 7, cost := none
    modelID := none, agent := none, providerID := none, sessionId := none }

theorem claim_C4_half_open_window_witness :
    timeOk (some 5) (some 9) c4msg = timeOk none (some 9) c4msg
    ∧ timeOk (some 3) (some 5) c4msg = false
    ∧ timeOk none none c4msg = true :=
  ⟨(claim_C4_half_open_window c4msg 5 rfl).1 (some 9),
    (claim_C4_half_open_window c4msg 5 rfl).2.1 (some 3),
    (claim_C4_half_open_window c4msg 5 rfl).2.2⟩

/-- C5: `totals` always yields the single row labelled `"total"`, and over
a window with no qualifying record it is the all-zero default row rather
than an empty result or an error. -/
theorem claim_C5_empty_totals :
    ∀ (s u : Option Int) (msgs : List Message),
      (totals s u msgs).label = "total"
      ∧ (msgs.filter (passes s u) = [] →
          totals s u msgs
            = { label := "total", calls := 0, tokens := {}, cost := 0
                detail := none }) := by
  intro s u msgs
  constructor
  · rw [totals_eq]
  · intro h
    rw [totals_eq, h]
    rfl

/-- A non-assistant record for the C5 witness: it never qualifies, so the
window over it is empty. -/
def c5msg : Message :=
  { role := some "user", created := some 3, tokInput := none
    tokOutput := none, tokReasoning := none, tokCacheRead := none
    tokCacheWrite := none, tokTotal := some 7, cost := none
    modelID := none, agent := none, providerID := none, sessionId := none }

theorem claim_C5_empty_totals_witness :
    (totals (some 0) (some 10) [c5msg]).label = "total"
    ∧ totals (some 0) (some 10) [c5msg]
        = { label := "total", calls := 0, tokens := {}, cost := 0
            detail := none } :=
  ⟨(claim_C5_empty_totals (some 0) (some 10) [c5msg]).1,
    (claim_C5_empty_totals (some 0) (some 10) [c5msg]).2 (by decide)⟩

theorem applyLimit_map_eq {α β : Type} (f : α → β) (n : Int) (l : List α) :
    (applyLimit (some n) l).map f
      = if n ≤ 0 then (applyLimit none l).map f
        else ((applyLimit none l).map f).take n.toNat := by
  rw [applyLimit_eq]
  by_cases h : n ≤ 0
  · simp [h, applyLimit]
  · simp [h, applyLimit, List.map_take]

/-- C7: for every view taking a limit, a limit of 0 or any negative value
returns the full sorted result, while a positive limit `n` truncates it to
the first `n` groups. -/
theorem claim_C7_limit_clamping :
    ∀ (localDate : Int → String) (sessions : List Session)
      (s u : Option Int) (msgs : List Message) (n : Int),
      daily localDate s u (some n) msgs
        = (if n ≤ 0 then daily localDate s u none msgs
           else (daily localDate s u none msgs).take n.toNat)
      ∧ by_model s u (some n) msgs
        = (if n ≤ 0 then by_model s u none msgs
           else (by_model s u none msgs).take n.toNat)
      ∧ by_agent s u (some n) msgs
        = (if n ≤ 0 then by_agent s u none msgs
           else (by_agent s u none msgs).take n.toNat)
      ∧ by_provider s u (some n) msgs
        = (if n ≤ 0 then by_provider s u none msgs
           else (by_provider s u none msgs).take n.toNat)
      ∧ by_session sessions s u (some n) msgs
        = (if n ≤ 0 then by_session sessions s u none msgs
           else (by_session sessions s u none msgs).take n.toNat) := by
  intro localDate sessions s u msgs n
  refine ⟨?_, ?_, ?_, ?_, ?_⟩
  · unfold daily base_query
    rw [applyLimit_map_eq]
  · unfold by_model base_query
    rw [applyLimit_map_eq]
  · unfold by_agent
    rw [applyLimit_map_eq]
  · unfold by_provider base_query
    rw [applyLimit_map_eq]
  · unfold by_session
    rw [applyLimit_map_eq]

/-- C8: under `--compare` the previous window abuts the current one
(`previous.until = current.since`) and has the same length as the current
window measured to the reference timestamp `now`
(`previous.since = current.since - (now - current.since)`); `now` is the
single reference reading `main` captures once before running both
queries, embedded as the one `now` argument of `compare_windows`. -/
theorem claim_C8_previous_window :
    ∀ now since : Int,
      (compare_windows now since).1.1 = some since
      ∧ (compare_windows now since).2.2 = (compare_windows now since).1.1
      ∧ (compare_windows now since).2.1 = some (2 * since - now)
      ∧ since - (2 * since - now) = now - since := by
  intro now since
  refine ⟨rfl, rfl, congrArg some (by ring), by ring⟩

/-- C3 as amended: `_compute_deltas` yields one entry per current row in
order; the matching key is the label alone when `detail` is absent OR the
empty string (Python truthiness), else `label + ":" + detail`; the
previous-period map sums `tokens.total` across duplicate keys; the entry
is `(cur - prev) / prev * 100` when a key match exists with summed
previous total > 0, and absent otherwise (no match, or matched total
<= 0). -/
theorem claim_C3_deltas_amended :
    ∀ current previous : List UsageRow,
      compute_deltas current previous
        = current.map (fun r =>
            if previous.any (fun p => deltaKey p = deltaKey r) then
              (if 0 < sumMatching previous (deltaKey r) then
                some (((r.tokens.total : Rat)
                    - (sumMatching previous (deltaKey r) : Rat))
                  / (sumMatching previous (deltaKey r) : Rat) * 100)
              else none)
            else none) := by
  intro current previous
  unfold compute_deltas
  apply List.map_congr_left
  intro r _
  rw [lookup_buildPrevMap]
  by_cases hany : previous.any (fun p => deltaKey p = deltaKey r) = true
  · rw [if_pos hany]
    by_cases hpos : 0 < sumMatching previous (deltaKey r)
    · have h0 : ¬ sumMatching previous (deltaKey r) = 0 := by omega
      simp [hpos, h0]
      obtain ⟨x, hx, hpx⟩ := List.any_eq_true.mp hany
      exact ⟨x, hx, of_decide_eq_true hpx⟩
    · simp [hpos]
  · rw [if_neg hany]
    simp [hany]

/-- Current row for the C3 counterexample: `detail` is the empty string,
so the claim as stated demands the composite key `"a:"`. -/
def c3current : List UsageRow :=
  [{ label := "a", calls := 1, tokens := { total := 200 }, cost := 0
     detail := some "" }]

/-- Previous rows for the C3 counterexample: keyed `"a"` with total 100. -/
def c3previous : List UsageRow :=
  [{ label := "a", calls := 1, tokens := { total := 100 }, cost := 0
     detail := none }]

/-- C3 counterexample: with a current row whose `detail` is the empty
string (present, non-null), the code matches on the bare label and
returns a +100% delta, while the claim's key rule (`label + ":" + detail`
whenever `detail` is present) would find no previous entry and demand an
absent delta. -/
theorem claim_C3_deltas_counterexample :
    compute_deltas c3current c3previous = [some 100]
    ∧ spec_compute_deltas c3current c3previous = [none]
    ∧ (some (100 : Rat) : Option Rat) ≠ none := by
  refine ⟨?_, ?_, by simp⟩
  · with_unfolding_all rfl
  · with_unfolding_all rfl

/-- C10: for a row whose `detail` is the empty string, `_compute_deltas`
keys it by its bare label (empty-string `detail` is falsy), behaving
exactly as if `detail` were absent, while `to_dicts` tests
`detail is not None` and still emits the `model` key with the empty
string. -/
theorem claim_C10_empty_detail :
    ∀ (r : UsageRow) (previous : List UsageRow), r.detail = some "" →
      deltaKey r = r.label
      ∧ (toDict r).model = some ""
      ∧ compute_deltas [r] previous
          = compute_deltas [{ r with detail := none }] previous := by
  intro r previous h
  refine ⟨?_, ?_, ?_⟩
  · simp [deltaKey, h]
  · simp [toDict, h]
  · simp [compute_deltas, deltaKey, h]

/-- A row with empty-string detail for the C10 witness. -/
def c10row : UsageRow :=
  { label := "m", calls := 1, tokens := { total := 3 }, cost := 0
    detail := some "" }

theorem claim_C10_empty_detail_witness :
    deltaKey c10row = c10row.label
    ∧ (toDict c10row).model = some ""
    ∧ compute_deltas [c10row] []
        = compute_deltas [{ c10row with detail := none }] [] :=
  claim_C10_empty_detail c10row [] rfl

/-- The by_session label rule as the code implements it, written out: the
session's title when present, non-null and non-empty; the placeholder when
the title is present but empty; the raw session id when no title is found
and the id is non-null and non-empty; the placeholder otherwise. -/
def amendedSessionLabel (sessions : List Session) (sid : Option String) :
    String :=
  match joinedTitle sessions sid with
  | some t => if t = "" then "(untitled)" else t
  | none =>
    match sid with
    | some i => if i = "" then "(untitled)" else i
    | none => "(untitled)"

theorem orPlaceholder_sessionLabelSql (sessions : List Session)
    (sid : Option String) :
    orPlaceholder (sessionLabelSql sessions sid) "(untitled)"
      = amendedSessionLabel sessions sid := by
  unfold amendedSessionLabel sessionLabelSql orPlaceholder
  cases joinedTitle sessions sid with
  | some t => rfl
  | none =>
    cases sid with
    | some i => rfl
    | none => rfl

/-- C6 as amended: by_session groups by session id, never by title — the
number of rows is the number of distinct session ids among the admitted
records (so two null-titled sessions stay distinct) — and each row's label
follows `amendedSessionLabel`: the title when present, non-null and
non-empty, the raw session id when no title row or a null title is found
and the id is non-empty, and the `"(untitled)"` placeholder when the
found title (or the id fallback) is empty or null. -/
theorem claim_C6_session_grouping_amended :
    ∀ (sessions : List Session) (s u : Option Int) (msgs : List Message),
      (by_session sessions s u none msgs).length
        = ((msgs.filter (passes s u)).map Message.sessionId).dedup.length
      ∧ ∀ r ∈ by_session sessions s u none msgs,
          ∃ sid ∈ ((msgs.filter (passes s u)).map Message.sessionId).dedup,
            r.label = amendedSessionLabel sessions sid
            ∧ r.calls = ((msgs.filter (passes s u)).filter
                (fun m => m.sessionId = sid)).length := by
  intro sessions s u msgs
  constructor
  · unfold by_session applyLimit
    rw [List.length_map, (sortBy_perm totalDescLe _).length_eq]
    unfold groupsFor
    rw [List.length_map]
  · intro r hr
    have hr2 : r ∈ (sortBy totalDescLe
        (groupsFor Message.sessionId s u msgs)).map
        (sessionRowOfGroup sessions) := hr
    rw [mem_sorted_groups_map] at hr2
    rcases hr2 with ⟨sid, hsid, rfl⟩
    exact ⟨sid, hsid, orPlaceholder_sessionLabelSql sessions sid, rfl⟩

/-- Sessions for the C6 witness: one session with a NULL title. -/
def c6sessions : List Session := [{ id := "s1", title := none }]

/-- One qualifying message in session `s1` for the C6 witness. -/
def c6msgs : List Message :=
  [{ role := some "assistant", created := some 1, tokInput := none
     tokOutput := none, tokReasoning := none, tokCacheRead := none
     tokCacheWrite := none, tokTotal := some 5, cost := none
     modelID := none, agent := none, providerID := none
     sessionId := some "s1" }]

/-- The row by_session returns on the C6 witness store. -/
def c6row : UsageRow :=
  { label := "s1", calls := 1, tokens := { total := 5 }, cost := 0
    detail := none }

theorem claim_C6_session_grouping_witness :
    ∃ sid ∈ ((c6msgs.filter (passes none none)).map Message.sessionId).dedup,
      c6row.label = amendedSessionLabel c6sessions sid
      ∧ c6row.calls = ((c6msgs.filter (passes none none)).filter
          (fun m => m.sessionId = sid)).length := by
  have h : by_session c6sessions none none none c6msgs = [c6row] := by
    with_unfolding_all rfl
  refine (claim_C6_session_grouping_amended c6sessions none none c6msgs).2
    c6row ?_
  rw [h]
  exact List.mem_cons_self c6row []

/-- Sessions for the C6 counterexample: the session's title is present and
non-null but empty. -/
def c6badSessions : List Session := [{ id := "s1", title := some "" }]

/-- One qualifying message in session `s1` for the C6 counterexample. -/
def c6badMsgs : List Message :=
  [{ role := some "assistant", created := some 1, tokInput := none
     tokOutput := none, tokReasoning := none, tokCacheRead := none
     tokCacheWrite := none, tokTotal := some 5, cost := none
     modelID := none, agent := none, providerID := none
     sessionId := some "s1" }]

/-- C6 counterexample: for a session whose title is present and non-null
but empty, the claim says the row's label is that title (the empty
string), but the code labels the row `"(untitled)"` — Python `or`
treats the empty COALESCE result as falsy. -/
theorem claim_C6_session_grouping_counterexample :
    (by_session c6badSessions none none none c6badMsgs).map
        (fun r => r.label) = ["(untitled)"]
    ∧ spec_session_label c6badSessions "s1" = ""
    ∧ ("(untitled)" : String) ≠ "" := by
  refine ⟨?_, ?_, by simp⟩
  · with_unfolding_all rfl
  · with_unfolding_all rfl

theorem label_ne_empty_base_query (key : Message → Option String) (le)
    (s u lim : Option Int) (msgs : List Message) :
    ∀ r ∈ base_query key le s u lim msgs, r.label ≠ "" := by
  intro r hr
  unfold base_query at hr
  rcases List.mem_map.mp hr with ⟨g, _, rfl⟩
  exact orPlaceholder_ne_empty g.1 "(unknown)" (by simp)

/-- C9: every row of every view carries a non-empty label, and a record
whose group key is NULL is neither dropped nor merged: it forms its own
group, counted exactly by the NULL-keyed records, labelled with the
view's placeholder (shown for by_model with `"(unknown)"` and for
by_session with `"(untitled)"`). -/
theorem claim_C9_placeholder_labels :
    ∀ (localDate : Int → String) (sessions : List Session)
      (s u lim : Option Int) (msgs : List Message),
      (∀ r ∈ daily localDate s u lim msgs, r.label ≠ "")
      ∧ (∀ r ∈ by_model s u lim msgs, r.label ≠ "")
      ∧ (∀ r ∈ by_agent s u lim msgs, r.label ≠ "")
      ∧ (∀ r ∈ by_provider s u lim msgs, r.label ≠ "")
      ∧ (∀ r ∈ by_session sessions s u lim msgs, r.label ≠ "")
      ∧ (totals s u msgs).label ≠ ""
      ∧ ((msgs.filter (passes s u)).any (fun m => m.modelID = none) = true →
          ∃ r ∈ by_model s u none msgs,
            r.label = "(unknown)"
            ∧ r.calls = ((msgs.filter (passes s u)).filter
                (fun m => m.modelID = none)).length)
      ∧ ((msgs.filter (passes s u)).any (fun m => m.sessionId = none) = true →
          ∃ r ∈ by_session sessions s u none msgs,
            r.label = "(untitled)"
            ∧ r.calls = ((msgs.filter (passes s u)).filter
                (fun m => m.sessionId = none)).length) := by
  intro localDate sessions s u lim msgs
  refine ⟨?_, ?_, ?_, ?_, ?_, ?_, ?_, ?_⟩
  · exact label_ne_empty_base_query (dailyKey localDate) labelDescLe s u lim msgs
  · exact label_ne_empty_base_query Message.modelID totalDescLe s u lim msgs
  · intro r hr
    unfold by_agent at hr
    rcases List.mem_map.mp hr with ⟨g, _, rfl⟩
    exact orPlaceholder_ne_empty g.1.1 "(unknown)" (by simp)
  · exact label_ne_empty_base_query Message.providerID totalDescLe s u lim msgs
  · intro r hr
    unfold by_session at hr
    rcases List.mem_map.mp hr with ⟨g, _, rfl⟩
    exact orPlaceholder_ne_empty (sessionLabelSql sessions g.1) "(untitled)"
      (by simp)
  · rw [totals_eq]
    simp
  · intro hany
    obtain ⟨m, hm, hpm⟩ := List.any_eq_true.mp hany
    have hkey : (none : Option String)
        ∈ ((msgs.filter (passes s u)).map Message.modelID).dedup :=
      List.mem_dedup.mpr (List.mem_map.mpr ⟨m, hm, of_decide_eq_true hpm⟩)
    refine ⟨rowOfGroup (none, (msgs.filter (passes s u)).filter
        (fun m => m.modelID = none)), ?_, rfl, rfl⟩
    exact (mem_sorted_groups_map rowOfGroup Message.modelID totalDescLe
      s u msgs _).mpr ⟨none, hkey, rfl⟩
  · intro hany
    obtain ⟨m, hm, hpm⟩ := List.any_eq_true.mp hany
    have hkey : (none : Option String)
        ∈ ((msgs.filter (passes s u)).map Message.sessionId).dedup :=
      List.mem_dedup.mpr (List.mem_map.mpr ⟨m, hm, of_decide_eq_true hpm⟩)
    refine ⟨sessionRowOfGroup sessions (none,
        (msgs.filter (passes s u)).filter (fun m => m.sessionId = none)),
      ?_, rfl, rfl⟩
    exact (mem_sorted_groups_map (sessionRowOfGroup sessions)
      Message.sessionId totalDescLe s u msgs _).mpr ⟨none, hkey, rfl⟩

/-- A qualifying record with a NULL modelID for the C9 witness. -/
def c9msgs : List Message :=
  [{ role := some "assistant", created := some 1, tokInput := none
     tokOutput := none, tokReasoning := none, tokCacheRead := none
     tokCacheWrite := none, tokTotal := some 5, cost := none
     modelID := none, agent := none, providerID := none
     sessionId := none }]

/-- The row by_model returns on the C9 witness store. -/
def c9row : UsageRow :=
  { label := "(unknown)", calls := 1, tokens := { total := 5 }, cost := 0
    detail := none }

theorem claim_C9_placeholder_labels_witness :
    c9row.label ≠ ""
    ∧ ∃ r ∈ by_model none none none c9msgs,
        r.label = "(unknown)"
        ∧ r.calls = ((c9msgs.filter (passes none none)).filter
            (fun m => m.modelID = none)).length := by
  constructor
  · have h : by_model none none none c9msgs = [c9row] := by
      with_unfolding_all rfl
    refine (claim_C9_placeholder_labels (fun _ => "d") [] none none none
      c9msgs).2.1 c9row ?_
    rw [h]
    exact List.mem_cons_self c9row []
  · exact (claim_C9_placeholder_labels (fun _ => "d") [] none none none
      c9msgs).2.2.2.2.2.2.1 (by decide)
